import Mathlib

/-!
Verification of the JSON:API response-formatting middleware of the oddworks
content server.  The repository ships the middleware's test suite
(spec/middleware/response-json-api-spec.js); the middleware implementation
itself (lib/middleware/response-json-api.js) is not part of the sources, so
every operation below is modelled from the specification document and checked
against the behaviour the test suite pins down.
-/

set_option autoImplicit false

namespace JsonApi

/-- Modelled from the spec: a `ResourceIdentifier = \x7btype, id\x7d` as used in
relationship entries (section 3, data model). -/
structure ResourceIdentifier where
  type : String
  id : String
deriving DecidableEq, Repr

/-- Modelled from the spec: the `data` field of a relationship entry is a
single identifier, an ordered sequence of identifiers, or null (section 3). -/
inductive RelData where
  | null : RelData
  | one : ResourceIdentifier → RelData
  | many : List ResourceIdentifier → RelData
deriving DecidableEq, Repr

/-- Modelled from the spec: a `RelationshipEntry` wraps the relationship
`data` (section 3). -/
structure RelationshipEntry where
  data : RelData
deriving DecidableEq, Repr

/-- Modelled from the spec: a `ResourceObject` with type, id, attributes,
relationships and an optional self link (section 3).  Attributes are kept
abstract as string key-value pairs; relationships are an ordered mapping from
relationship name to entry. -/
structure ResourceObject where
  type : String
  id : String
  attributes : List (String × String)
  relationships : List (String × RelationshipEntry)
  links : Option String
deriving DecidableEq, Repr

/-- Modelled from the spec: identity attached to the request by the identity
collaborator; absent fields are represented by `Option` and passed through
unvalidated (sections 4.4 and 6). -/
structure Identity where
  channelId : Option String
  platformType : Option String
deriving DecidableEq, Repr

/-- Modelled from the spec: the raw `query` value of a request.  The test
suite's default request carries the empty string instead of an object, so the
model distinguishes an absent value, a plain string and a proper key-value
object (sections 4.1 and 7: malformed query values degrade to defaults). -/
inductive QueryVal where
  | undef : QueryVal
  | str : String → QueryVal
  | obj : List (String × String) → QueryVal
deriving DecidableEq, Repr

/-- Modelled from the spec: the request fields the middleware consumes:
protocol, hostname, socket-derived port, original url (path plus query),
query and identity (section 6). -/
structure Request where
  protocol : String
  hostname : String
  port : Nat
  url : Option String
  query : QueryVal
  identity : Identity
deriving DecidableEq, Repr

/-- Modelled from the spec: static middleware configuration.  `pre` models the
configured base-url path segment inserted after the host (default none) and
`excludePortFromLinks` omits the port from all generated links (section 6). -/
structure Config where
  pre : Option String
  excludePortFromLinks : Bool
deriving DecidableEq, Repr

/-- Modelled from the spec: the meta block derived from the requesting
identity (section 4.4). -/
structure Meta where
  channel : Option String
  platform : Option String
deriving DecidableEq, Repr

/-- Modelled from the spec: primary document data — a single resource object
or an ordered sequence of resource objects (section 3). -/
inductive DocData where
  | one : ResourceObject → DocData
  | many : List ResourceObject → DocData
deriving DecidableEq, Repr

/-- Modelled from the spec: the emitted JSON:API document with `data`,
optional `included`, named links and `meta` (section 3).  Links are an ordered
mapping from link name (self, next, prev, ...) to URL. -/
structure Document where
  data : DocData
  included : Option (List ResourceObject)
  links : List (String × String)
  meta : Meta
deriving DecidableEq, Repr

/-- Modelled from the spec: the resolver capability
`resolve(type, id) -> ResourceObject | not-found` (section 6); an `error`
result models a resolver fault as opposed to an ordinary not-found, which is
`ok none` (sections 5 and 7). -/
abbrev Resolver := String → String → Except String (Option ResourceObject)

/-- First value bound to a key in an ordered string mapping. -/
def lookupStr (fields : List (String × String)) (k : String) : Option String :=
  match fields with
  | [] => Option.none
  | (k2, v) :: rest => if k2 = k then some v else lookupStr rest k

/-- Split a character list at every occurrence of a separator character; the
accumulator holds the current component reversed. -/
def splitOnCharAux (sep : Char) : List Char → List Char → List String
  | [], acc => [String.mk acc.reverse]
  | c :: rest, acc =>
    if c = sep then String.mk acc.reverse :: splitOnCharAux sep rest []
    else splitOnCharAux sep rest (c :: acc)

/-- Split a string at every occurrence of a separator character, the
single-character case of standard string splitting. -/
def splitOnChar (sep : Char) (s : String) : List String :=
  splitOnCharAux sep s.toList []

/-- The comma character. -/
def commaChar : Char := Char.ofNat 44

/-- The forward-slash character. -/
def slashChar : Char := Char.ofNat 47

/-- Modelled from the spec: include paths are parsed from a comma-separated
`include` query parameter; absent, empty or malformed query values yield the
empty set (section 4.1). -/
def parseInclude : QueryVal → List String
  | QueryVal.obj fields =>
    match lookupStr fields "include" with
    | some s => if s = "" then [] else splitOnChar commaChar s
    | Option.none => []
  | _ => []

/-- Modelled from the spec: normalisation of the configured base-url path
segment so that it is inserted between host and resource path with exactly one
separating slash, never duplicated (section 4.1): leading and trailing slashes
are trimmed and a single leading slash is attached. -/
def normPre : Option String → String
  | Option.none => ""
  | some p =>
    let q := ((p.toList.dropWhile (fun c => c = slashChar)).reverse.dropWhile
        (fun c => c = slashChar)).reverse
    if q.isEmpty then "" else "/" ++ String.mk q

/-- Modelled from the spec: base URL composition
`protocol://hostname[:port]` followed by the configured path segment; the port
is omitted entirely when `excludePortFromLinks` is true (section 4.1). -/
def baseUrl (cfg : Config) (req : Request) : String :=
  req.protocol ++ "://" ++ req.hostname ++
    (if cfg.excludePortFromLinks then "" else ":" ++ toString req.port) ++
    normPre cfg.pre

/-- Modelled from the spec: a resource type maps directly to its URL
collection segment, e.g. video to videos (section 4.3). -/
def pluralize (t : String) : String := t ++ "s"

/-- Path suffix of a single resource's self link: slash, pluralized type,
slash, id (section 4.3). -/
def resourceSelfSuffix (r : ResourceObject) : String :=
  "/" ++ pluralize r.type ++ "/" ++ r.id

/-- Attach the self link a resource receives in the emitted document. -/
def withSelfLink (cfg : Config) (req : Request) (r : ResourceObject) : ResourceObject :=
  { r with links := some (baseUrl cfg req ++ resourceSelfSuffix r) }

/-- True for the characters Node's query-string escaping leaves unchanged:
ASCII alphanumerics and - _ . ! ~ * quote ( ). -/
def isUnreservedChar (c : Char) : Bool :=
  c.isAlphanum || [45, 95, 46, 33, 126, 42, 39, 40, 41].contains c.toNat

/-- Upper-case hexadecimal digit for a value below 16. -/
def hexDigit (n : Nat) : Char :=
  if n < 10 then Char.ofNat (48 + n) else Char.ofNat (55 + n)

/-- Percent-encoding of one byte, e.g. 91 to the three characters of %5B. -/
def byteHex (b : Nat) : String :=
  String.mk [Char.ofNat 37, hexDigit (b / 16), hexDigit (b % 16)]

/-- UTF-8 bytes of a unicode code point. -/
def utf8ByteList (n : Nat) : List Nat :=
  if n < 128 then [n]
  else if n < 2048 then [192 + n / 64, 128 + n % 64]
  else if n < 65536 then [224 + n / 4096, 128 + (n / 64) % 64, 128 + n % 64]
  else [240 + n / 262144, 128 + (n / 4096) % 64, 128 + (n / 64) % 64, 128 + n % 64]

/-- Standard query-string escaping of one character. -/
def qsEscapeChar (c : Char) : String :=
  if isUnreservedChar c then String.singleton c
  else String.join ((utf8ByteList c.toNat).map byteHex)

/-- Modelled from the spec: standard percent-encoding of a query-string
component (section 4.3). -/
def qsEscape (s : String) : String :=
  String.join (s.toList.map qsEscapeChar)

/-- Modelled from the spec: serialisation of query pairs with percent-encoded
keys and values, key order preserved (section 4.3). -/
def qsStringify (pairs : List (String × String)) : String :=
  String.intercalate "&" (pairs.map (fun kv => qsEscape kv.1 ++ "=" ++ qsEscape kv.2))

/-- The equals-sign character. -/
def eqChar : Char := Char.ofNat 61

/-- The ampersand character. -/
def ampChar : Char := Char.ofNat 38

/-- The question-mark character. -/
def questChar : Char := Char.ofNat 63

/-- Split one `key=value` component of a raw query string. -/
def splitPair (s : String) : String × String :=
  match splitOnChar eqChar s with
  | [] => ("", "")
  | [k] => (k, "")
  | k :: rest => (k, String.intercalate "=" rest)

/-- Parse a raw query string into ordered key-value pairs. -/
def parseQueryString (s : String) : List (String × String) :=
  if s = "" then [] else (splitOnChar ampChar s).map splitPair

/-- Path part of the original request url: everything before the first
question mark. -/
def urlPath (u : String) : String :=
  match splitOnChar questChar u with
  | [] => u
  | p :: _ => p

/-- Query pairs of the original request url: everything after the first
question mark, parsed. -/
def urlQuery (u : String) : List (String × String) :=
  match splitOnChar questChar u with
  | [] => []
  | [_] => []
  | _ :: q :: _ => parseQueryString q

/-- Serialised query suffix: empty for an empty query, otherwise a question
mark followed by the encoded pairs. -/
def querySuffix (pairs : List (String × String)) : String :=
  if pairs.isEmpty then "" else "?" ++ qsStringify pairs

/-- Modelled from the spec: merging a pagination hint into a copy of the
original query, replacing only the hint's keys and preserving original key
order (section 4.3). -/
def mergeQuery (orig hint : List (String × String)) : List (String × String) :=
  orig.map (fun kv =>
    match lookupStr hint kv.1 with
    | some v => (kv.1, v)
    | Option.none => kv) ++
  hint.filter (fun kv => (lookupStr orig kv.1).isNone)

/-- Path-and-query suffix of a collection's self link: the original request
path and query, re-encoded (section 4.3). -/
def collectionSelfSuffix (req : Request) : String :=
  urlPath (req.url.getD "") ++ querySuffix (urlQuery (req.url.getD ""))

/-- Modelled from the spec: the links of a collection document — `self`
reproduces the original request path and query, and each pagination hint
attached to the collection produces a corresponding link by merging its pairs
into a copy of the original query (section 4.3).  Missing hints simply omit
the corresponding link key. -/
def collectionLinks (cfg : Config) (req : Request)
    (lq : List (String × List (String × String))) : List (String × String) :=
  ("self", baseUrl cfg req ++ collectionSelfSuffix req) ::
    lq.map (fun nh =>
      (nh.1, baseUrl cfg req ++ urlPath (req.url.getD "") ++
        querySuffix (mergeQuery (urlQuery (req.url.getD "")) nh.2)))

/-- Modelled from the spec: the meta block
`\x7bchannel: identity.channelId, platform: identity.platformType\x7d`,
with absent identity fields passed through as-is (section 4.4). -/
def metaFor (idn : Identity) : Meta :=
  { channel := idn.channelId, platform := idn.platformType }

/-- The identifiers carried by a relationship's data. -/
def relDataIds : RelData → List ResourceIdentifier
  | RelData.null => []
  | RelData.one r => [r]
  | RelData.many rs => rs

/-- Modelled from the spec: resolve every identifier of a sequence, keeping
resolved identifier-resource pairs in order; a resolver miss drops the
identifier, a resolver fault propagates (sections 4.2, 5, 7). -/
def resolveList (resolver : Resolver) :
    List ResourceIdentifier → Except String (List (ResourceIdentifier × ResourceObject))
  | [] => Except.ok []
  | rid :: rest =>
    match resolver rid.type rid.id with
    | Except.error e => Except.error e
    | Except.ok o =>
      match resolveList resolver rest with
      | Except.error e => Except.error e
      | Except.ok tail =>
        match o with
        | some res => Except.ok ((rid, res) :: tail)
        | Option.none => Except.ok tail

/-- Modelled from the spec: filtering of one relationship's data — an
unresolvable identifier is removed (single-valued becomes null) or filtered
out (collection-valued), and the resolved resources are collected for the
included set (section 4.2). -/
def filterRelData (resolver : Resolver) : RelData → Except String (RelData × List ResourceObject)
  | RelData.null => Except.ok (RelData.null, [])
  | RelData.one rid =>
    match resolver rid.type rid.id with
    | Except.error e => Except.error e
    | Except.ok (some res) => Except.ok (RelData.one rid, [res])
    | Except.ok Option.none => Except.ok (RelData.null, [])
  | RelData.many rids =>
    match resolveList resolver rids with
    | Except.error e => Except.error e
    | Except.ok pairs => Except.ok (RelData.many (pairs.map Prod.fst), pairs.map Prod.snd)

/-- Modelled from the spec: walk a resource's relationships in order; each one
whose name is in the include set has its data filtered and its resolved
targets collected, the others pass through untouched (section 4.2). -/
def processRels (resolver : Resolver) (includes : List String) :
    List (String × RelationshipEntry) →
    Except String (List (String × RelationshipEntry) × List ResourceObject)
  | [] => Except.ok ([], [])
  | (name, entry) :: rest =>
    if name ∈ includes then
      match filterRelData resolver entry.data with
      | Except.error e => Except.error e
      | Except.ok (d, resolved) =>
        match processRels resolver includes rest with
        | Except.error e => Except.error e
        | Except.ok (restRels, restRes) =>
          Except.ok ((name, ⟨d⟩) :: restRels, resolved ++ restRes)
    else
      match processRels resolver includes rest with
      | Except.error e => Except.error e
      | Except.ok (restRels, restRes) => Except.ok ((name, entry) :: restRels, restRes)

/-- Deduplication key of a resource: the pair (type, id). -/
def keyOf (r : ResourceObject) : String × String := (r.type, r.id)

/-- Modelled from the spec: deduplicate the resolved resources by (type, id)
in first-seen order (section 4.2). -/
def dedupResources : List ResourceObject → List (String × String) → List ResourceObject
  | [], _ => []
  | r :: rest, seen =>
    if keyOf r ∈ seen then dedupResources rest seen
    else r :: dedupResources rest (keyOf r :: seen)

/-- Process one resource against the include set: its relationships are
filtered and its resolved relationship targets returned alongside. -/
def formatResource (resolver : Resolver) (includes : List String) (r : ResourceObject) :
    Except String (ResourceObject × List ResourceObject) :=
  match processRels resolver includes r.relationships with
  | Except.error e => Except.error e
  | Except.ok (rels, resolved) => Except.ok ({ r with relationships := rels }, resolved)

/-- Process every resource of a collection in order, concatenating the
resolved relationship targets in collection order (section 4.2). -/
def processResources (resolver : Resolver) (includes : List String) :
    List ResourceObject → Except String (List ResourceObject × List ResourceObject)
  | [] => Except.ok ([], [])
  | r :: rest =>
    match formatResource resolver includes r with
    | Except.error e => Except.error e
    | Except.ok (r2, resolved) =>
      match processResources resolver includes rest with
      | Except.error e => Except.error e
      | Except.ok (rest2, resolvedRest) => Except.ok (r2 :: rest2, resolved ++ resolvedRest)

/-- Modelled from the spec: assembly of a single-resource document — self
link from pluralized type and id, inclusion only when the include set is
non-empty (then `included` is present, deduplicated, each entry with its own
self link), meta from identity (sections 4.2 to 4.5). -/
def formatSingle (cfg : Config) (resolver : Resolver) (req : Request) (r : ResourceObject) :
    Except String Document :=
  let includes := parseInclude req.query
  let selfLink := baseUrl cfg req ++ resourceSelfSuffix r
  if includes.isEmpty then
    Except.ok { data := DocData.one (withSelfLink cfg req r), included := Option.none,
                links := [("self", selfLink)], meta := metaFor req.identity }
  else
    match formatResource resolver includes r with
    | Except.error e => Except.error e
    | Except.ok (r2, resolved) =>
      Except.ok { data := DocData.one (withSelfLink cfg req r2),
                  included := some ((dedupResources resolved []).map (withSelfLink cfg req)),
                  links := [("self", selfLink)], meta := metaFor req.identity }

/-- Modelled from the spec: assembly of a collection document — data in input
order, links from the original url and the pagination hints, inclusion only
when the include set is non-empty, meta from identity (sections 4.2 to 4.5).
An empty input array is valid and yields an empty data array. -/
def formatCollection (cfg : Config) (resolver : Resolver) (req : Request)
    (rs : List ResourceObject) (lq : List (String × List (String × String))) :
    Except String Document :=
  let includes := parseInclude req.query
  if includes.isEmpty then
    Except.ok { data := DocData.many (rs.map (withSelfLink cfg req)), included := Option.none,
                links := collectionLinks cfg req lq, meta := metaFor req.identity }
  else
    match processResources resolver includes rs with
    | Except.error e => Except.error e
    | Except.ok (rs2, resolved) =>
      Except.ok { data := DocData.many (rs2.map (withSelfLink cfg req)),
                  included := some ((dedupResources resolved []).map (withSelfLink cfg req)),
                  links := collectionLinks cfg req lq, meta := metaFor req.identity }

/-- Modelled from the spec: the response body placed on the response by
upstream collaborators — a single resource payload, or an array of payloads
possibly carrying a `linksQueries` side-channel of pagination hints
(section 4.5). -/
inductive Body where
  | single : ResourceObject → Body
  | listing : List ResourceObject → List (String × List (String × String)) → Body
deriving DecidableEq, Repr

/-- Modelled from the spec: the middleware entry point — detect single versus
collection shape and assemble the document; a resolver fault propagates as an
error, everything else succeeds (section 4.5). -/
def responseJsonApi (cfg : Config) (resolver : Resolver) (req : Request) (body : Body) :
    Except String Document :=
  match body with
  | Body.single r => formatSingle cfg resolver req r
  | Body.listing rs lq => formatCollection cfg resolver req rs lq

/-- The resource objects carried by a document's primary data. -/
def Document.dataList (doc : Document) : List ResourceObject :=
  match doc.data with
  | DocData.one r => [r]
  | DocData.many rs => rs

/-- Every URL a document carries: the document links, the self links of the
primary data and the self links of the included resources. -/
def allLinks (doc : Document) : List String :=
  doc.links.map Prod.snd ++ doc.dataList.filterMap ResourceObject.links ++
    (doc.included.getD []).filterMap ResourceObject.links

/-! Concrete data mirroring the fixtures and requests of the middleware test
suite (spec/middleware/response-json-api-spec.js): three seeded videos, a
collection whose `entities` relationship references them, a broken copy of the
collection whose references point at nonexistent ids, and the requests the
suite sends. -/

/-- Seeded video fixture with the given index. -/
def videoFix (n : Nat) : ResourceObject :=
  { type := "video", id := "1111-" ++ toString n,
    attributes := [("title", "video-" ++ toString n)],
    relationships := [], links := Option.none }

/-- The identifiers the collection fixture's `entities` relationship holds. -/
def entityIds : List ResourceIdentifier :=
  [⟨"video", "1111-0"⟩, ⟨"video", "1111-1"⟩, ⟨"video", "1111-2"⟩]

/-- The collection fixture. -/
def collectionFix : ResourceObject :=
  { type := "collection", id := "collection-0",
    attributes := [("title", "collection-0")],
    relationships := [("entities", ⟨RelData.many entityIds⟩)],
    links := Option.none }

/-- The broken collection: every entity reference is corrupted with an xxx-
prefixed id that resolves to nothing. -/
def brokenCollectionFix : ResourceObject :=
  { collectionFix with
    id := "broken-collection-1",
    relationships :=
      [("entities", ⟨RelData.many (entityIds.map (fun rid => { rid with id := "xxx-" ++ rid.id }))⟩)] }

/-- Resolver backed by the seeded store: the three videos and the collection
resolve, everything else is not found.  Never faults. -/
def testResolver : Resolver := fun t i =>
  if t = "video" && i = "1111-0" then Except.ok (some (videoFix 0))
  else if t = "video" && i = "1111-1" then Except.ok (some (videoFix 1))
  else if t = "video" && i = "1111-2" then Except.ok (some (videoFix 2))
  else if t = "collection" && i = "collection-0" then Except.ok (some collectionFix)
  else Except.ok Option.none

/-- The identity the test suite attaches to every request. -/
def testIdentity : Identity :=
  { channelId := some "channel-id", platformType := some "APPLE_TV" }

/-- The suite's base request: https, example.com, port 3000, query the empty
string, no url. -/
def testReq : Request :=
  { protocol := "https", hostname := "example.com", port := 3000,
    url := Option.none, query := QueryVal.str "", identity := testIdentity }

/-- The base request with `include=entities,video`. -/
def testReqInc : Request :=
  { testReq with query := QueryVal.obj [("include", "entities,video")] }

/-- The listing request: GET /collections with pagination query. -/
def listingReq : Request :=
  { testReq with url := some "/collections?page[limit]=14&page[offset]=0" }

/-- The pagination hints attached to the listing body. -/
def listingHints : List (String × List (String × String)) :=
  [("next", [("page[limit]", "10"), ("page[offset]", "11")])]

/-- Default middleware configuration: no path segment, port kept. -/
def defaultCfg : Config := { pre := Option.none, excludePortFromLinks := false }

/-- The document the middleware produces for the suite's single-resource
request without includes. -/
def docSingleFix : Document :=
  { data := DocData.one { collectionFix with
      links := some "https://example.com:3000/collections/collection-0" },
    included := Option.none,
    links := [("self", "https://example.com:3000/collections/collection-0")],
    meta := { channel := some "channel-id", platform := some "APPLE_TV" } }

/-- The document the middleware produces for the suite's single-resource
request with `include=entities,video`. -/
def docIncludedFix : Document :=
  { data := DocData.one { collectionFix with
      links := some "https://example.com:3000/collections/collection-0" },
    included := some
      [{ videoFix 0 with links := some "https://example.com:3000/videos/1111-0" },
       { videoFix 1 with links := some "https://example.com:3000/videos/1111-1" },
       { videoFix 2 with links := some "https://example.com:3000/videos/1111-2" }],
    links := [("self", "https://example.com:3000/collections/collection-0")],
    meta := { channel := some "channel-id", platform := some "APPLE_TV" } }

/-- The document the middleware produces for the broken collection: empty
included array and emptied relationship data. -/
def docBrokenFix : Document :=
  { data := DocData.one
      { brokenCollectionFix with
        relationships := [("entities", ⟨RelData.many []⟩)],
        links := some "https://example.com:3000/collections/broken-collection-1" },
    included := some [],
    links := [("self", "https://example.com:3000/collections/broken-collection-1")],
    meta := { channel := some "channel-id", platform := some "APPLE_TV" } }

/-- A resource with its relationship mapping removed, used to state that every
other field passes through the assembler untouched. -/
def stripRels (r : ResourceObject) : ResourceObject := { r with relationships := [] }

/-- The resource payloads carried by a response body. -/
def bodyResources : Body → List ResourceObject
  | Body.single r => [r]
  | Body.listing rs _ => rs

/-- Every relationship identifier of the resource that the include set
requests fails to resolve (ordinary not-found, not a fault). -/
def allMissesResource (resolver : Resolver) (includes : List String) (r : ResourceObject) : Prop :=
  ∀ name entry rid, (name, entry) ∈ r.relationships → name ∈ includes →
    rid ∈ relDataIds entry.data → resolver rid.type rid.id = Except.ok Option.none

/-- The resolver never faults: every call returns ok, found or not. -/
def resolverTotal (resolver : Resolver) : Prop :=
  ∀ t i, ∃ o, resolver t i = Except.ok o

/-- The configuration-independent shape of every link a response carries: the
list of path-and-query suffixes that get appended to the base URL, in document
order (document links, then primary-data self links, then included self
links).  Mirrors the branching of the assembler. -/
def docShape (resolver : Resolver) (req : Request) (body : Body) :
    Except String (List String) :=
  let includes := parseInclude req.query
  match body with
  | Body.single r =>
    if includes.isEmpty then
      Except.ok [resourceSelfSuffix r, resourceSelfSuffix r]
    else
      match formatResource resolver includes r with
      | Except.error e => Except.error e
      | Except.ok (r2, resolved) =>
        Except.ok (resourceSelfSuffix r :: resourceSelfSuffix r2 ::
          (dedupResources resolved []).map resourceSelfSuffix)
  | Body.listing rs lq =>
    let collShape := collectionSelfSuffix req ::
      lq.map (fun nh => urlPath (req.url.getD "") ++
        querySuffix (mergeQuery (urlQuery (req.url.getD "")) nh.2))
    if includes.isEmpty then
      Except.ok (collShape ++ rs.map resourceSelfSuffix)
    else
      match processResources resolver includes rs with
      | Except.error e => Except.error e
      | Except.ok (rs2, resolved) =>
        Except.ok (collShape ++ rs2.map resourceSelfSuffix ++
          (dedupResources resolved []).map resourceSelfSuffix)

/-- The fourteen listing resources of the test suite's pagination scenario. -/
def listingResources : List ResourceObject :=
  (List.range 14).map (fun n => { collectionFix with id := "random-resource-" ++ toString n })

/-- The document produced for the pagination request over an empty listing. -/
def docEmptyListing : Document :=
  { data := DocData.many [],
    included := Option.none,
    links := [("self", "https://example.com:3000/collections?page%5Blimit%5D=14&page%5Boffset%5D=0"),
              ("next", "https://example.com:3000/collections?page%5Blimit%5D=10&page%5Boffset%5D=11")],
    meta := { channel := some "channel-id", platform := some "APPLE_TV" } }

/-- The same empty-listing document with the port excluded from links. -/
def docEmptyListingNoPort : Document :=
  { data := DocData.many [],
    included := Option.none,
    links := [("self", "https://example.com/collections?page%5Blimit%5D=14&page%5Boffset%5D=0"),
              ("next", "https://example.com/collections?page%5Blimit%5D=10&page%5Boffset%5D=11")],
    meta := { channel := some "channel-id", platform := some "APPLE_TV" } }

/-- The document produced for the pagination request over a one-element
listing. -/
def docOneListing : Document :=
  { data := DocData.many [{ collectionFix with
      links := some "https://example.com:3000/collections/collection-0" }],
    included := Option.none,
    links := [("self", "https://example.com:3000/collections?page%5Blimit%5D=14&page%5Boffset%5D=0"),
              ("next", "https://example.com:3000/collections?page%5Blimit%5D=10&page%5Boffset%5D=11")],
    meta := { channel := some "channel-id", platform := some "APPLE_TV" } }

end JsonApi

namespace JsonApi

/-- A resource with its self link attached keeps its type. -/
lemma withSelfLink_type (cfg : Config) (req : Request) (r : ResourceObject) :
    (withSelfLink cfg req r).type = r.type := rfl

/-- A resource with its self link attached keeps its id. -/
lemma withSelfLink_id (cfg : Config) (req : Request) (r : ResourceObject) :
    (withSelfLink cfg req r).id = r.id := rfl

/-- The self link attached to a resource is base, slash, pluralized type,
slash, id — stated on the decorated resource's own fields. -/
lemma withSelfLink_links_self (cfg : Config) (req : Request) (x : ResourceObject) :
    (withSelfLink cfg req x).links =
      some (baseUrl cfg req ++ "/" ++ pluralize (withSelfLink cfg req x).type ++ "/" ++
        (withSelfLink cfg req x).id) := by
  simp [withSelfLink, resourceSelfSuffix, String.append_assoc]

/-- C5: every emitted document — single resource, collection, or empty
collection — carries a meta block equal to the request identity's channel id
and platform type, absent fields passed through unvalidated. -/
theorem meta_matches_identity (cfg : Config) (resolver : Resolver) (req : Request)
    (body : Body) (doc : Document)
    (h : responseJsonApi cfg resolver req body = Except.ok doc) :
    doc.meta = { channel := req.identity.channelId, platform := req.identity.platformType } := by
  cases body with
  | single r =>
    simp only [responseJsonApi, formatSingle] at h
    split at h
    · cases h; rfl
    · split at h
      · exact Except.noConfusion h
      · cases h; rfl
  | listing rs lq =>
    simp only [responseJsonApi, formatCollection] at h
    split at h
    · cases h; rfl
    · split at h
      · exact Except.noConfusion h
      · cases h; rfl

/-- C5 witness: the suite's single-resource request yields the meta block
with channel `channel-id` and platform `APPLE_TV`. -/
theorem meta_matches_identity_witness :
    Document.meta docSingleFix =
      { channel := some "channel-id", platform := some "APPLE_TV" } :=
  meta_matches_identity defaultCfg testResolver testReq (Body.single collectionFix)
    docSingleFix (by rfl)

/-- C3: the self link of a single primary resource is base, slash, pluralized
type, slash, id; every included resource receives its own self link by the
same rule; and pluralization maps video to videos and collection to
collections. -/
theorem single_self_link_shape (cfg : Config) (resolver : Resolver) (req : Request)
    (r : ResourceObject) (doc : Document)
    (h : formatSingle cfg resolver req r = Except.ok doc) :
    lookupStr doc.links "self" =
        some (baseUrl cfg req ++ "/" ++ pluralize r.type ++ "/" ++ r.id) ∧
      (∀ inc ∈ doc.included.getD [],
        inc.links = some (baseUrl cfg req ++ "/" ++ pluralize inc.type ++ "/" ++ inc.id)) ∧
      pluralize "video" = "videos" ∧ pluralize "collection" = "collections" := by
  simp only [formatSingle] at h
  split at h
  · cases h
    refine ⟨?_, ?_, rfl, rfl⟩
    · simp [lookupStr, resourceSelfSuffix, String.append_assoc]
    · intro inc hinc
      simp at hinc
  · split at h
    · exact Except.noConfusion h
    · cases h
      refine ⟨?_, ?_, rfl, rfl⟩
      · simp [lookupStr, resourceSelfSuffix, String.append_assoc]
      · intro inc hinc
        simp only [Option.getD_some] at hinc
        rcases List.mem_map.mp hinc with ⟨x, _, rfl⟩
        exact withSelfLink_links_self cfg req x

/-- Processing a resource against the include set changes only its
relationship mapping. -/
lemma formatResource_strip {resolver : Resolver} {incl : List String}
    {r r2 : ResourceObject} {res : List ResourceObject}
    (h : formatResource resolver incl r = Except.ok (r2, res)) :
    stripRels r2 = stripRels r := by
  unfold formatResource at h
  split at h
  · exact Except.noConfusion h
  · cases h
    rfl

/-- Processing a collection changes only the relationship mappings of its
elements, preserving order. -/
lemma processResources_strip {resolver : Resolver} {incl : List String} :
    ∀ {rs rs2 res : List ResourceObject},
      processResources resolver incl rs = Except.ok (rs2, res) →
      rs2.map stripRels = rs.map stripRels := by
  intro rs
  induction rs with
  | nil =>
    intro rs2 res h
    simp only [processResources] at h
    cases h
    rfl
  | cons r rest ih =>
    intro rs2 res h
    simp only [processResources] at h
    split at h
    · exact Except.noConfusion h
    · rename_i r2 resolved heq
      split at h
      · exact Except.noConfusion h
      · rename_i rest2 resolvedRest heq2
        cases h
        simp [List.map_cons, formatResource_strip heq, ih heq2]

/-- Every pair a successful sequence resolution returns records a successful
resolver hit for its identifier. -/
lemma resolveList_mem {resolver : Resolver} :
    ∀ {rids : List ResourceIdentifier} {pairs : List (ResourceIdentifier × ResourceObject)},
      resolveList resolver rids = Except.ok pairs →
      ∀ pr ∈ pairs, resolver pr.1.type pr.1.id = Except.ok (some pr.2) := by
  intro rids
  induction rids with
  | nil =>
    intro pairs h pr hpr
    simp only [resolveList] at h
    cases h
    simp at hpr
  | cons rid rest ih =>
    intro pairs h pr hpr
    simp only [resolveList] at h
    split at h
    · exact Except.noConfusion h
    · rename_i o ho
      split at h
      · exact Except.noConfusion h
      · rename_i tail htail
        split at h
        · cases h
          rcases List.mem_cons.mp hpr with hpr | hpr
          · subst hpr
            exact ho
          · exact ih htail pr hpr
        · cases h
          exact ih htail pr hpr

/-- A successful sequence resolution is empty exactly when every identifier
in the sequence misses. -/
lemma resolveList_nil_iff {resolver : Resolver} :
    ∀ {rids : List ResourceIdentifier} {pairs : List (ResourceIdentifier × ResourceObject)},
      resolveList resolver rids = Except.ok pairs →
      (pairs = [] ↔ ∀ rid ∈ rids, resolver rid.type rid.id = Except.ok Option.none) := by
  intro rids
  induction rids with
  | nil =>
    intro pairs h
    simp only [resolveList] at h
    cases h
    simp
  | cons rid rest ih =>
    intro pairs h
    simp only [resolveList] at h
    split at h
    · exact Except.noConfusion h
    · rename_i o ho
      split at h
      · exact Except.noConfusion h
      · rename_i tail htail
        split at h
        · cases h
          constructor
          · intro habs
            exact absurd habs (List.cons_ne_nil _ _)
          · intro hall
            have h1 := hall rid (List.mem_cons_self rid rest)
            rw [ho] at h1
            exact absurd h1 (by simp)
        · cases h
          rw [ih htail]
          constructor
          · intro hrest rid2 hmem
            rcases List.mem_cons.mp hmem with hm | hm
            · subst hm; exact ho
            · exact hrest rid2 hm
          · intro hall rid2 hmem
            exact hall rid2 (List.mem_cons_of_mem rid hmem)

/-- Every identifier surviving in a filtered relationship's data has a
resolved resource in the collected list. -/
lemma filterRelData_dangling {resolver : Resolver} {d d2 : RelData}
    {res : List ResourceObject}
    (h : filterRelData resolver d = Except.ok (d2, res)) :
    ∀ rid ∈ relDataIds d2, ∃ ro ∈ res, resolver rid.type rid.id = Except.ok (some ro) := by
  cases d with
  | null =>
    simp only [filterRelData] at h
    cases h
    intro rid hrid
    simp [relDataIds] at hrid
  | one rid0 =>
    simp only [filterRelData] at h
    split at h
    · exact Except.noConfusion h
    · rename_i res0 hres0
      cases h
      intro rid hrid
      simp only [relDataIds, List.mem_singleton] at hrid
      subst hrid
      exact ⟨res0, by simp, hres0⟩
    · cases h
      intro rid hrid
      simp [relDataIds] at hrid
  | many rids =>
    simp only [filterRelData] at h
    split at h
    · exact Except.noConfusion h
    · rename_i pairs hpairs
      cases h
      intro rid hrid
      simp only [relDataIds] at hrid
      rcases List.mem_map.mp hrid with ⟨pr, hpr, hfst⟩
      subst hfst
      exact ⟨pr.2, List.mem_map_of_mem Prod.snd hpr, resolveList_mem hpairs pr hpr⟩

/-- The collected list of a filtered relationship is empty exactly when every
identifier of the original data misses. -/
lemma filterRelData_nil_iff {resolver : Resolver} {d d2 : RelData}
    {res : List ResourceObject}
    (h : filterRelData resolver d = Except.ok (d2, res)) :
    (res = [] ↔ ∀ rid ∈ relDataIds d, resolver rid.type rid.id = Except.ok Option.none) := by
  cases d with
  | null =>
    simp only [filterRelData] at h
    cases h
    simp [relDataIds]
  | one rid0 =>
    simp only [filterRelData] at h
    split at h
    · exact Except.noConfusion h
    · rename_i res0 hres0
      cases h
      constructor
      · intro habs
        exact absurd habs (List.cons_ne_nil _ _)
      · intro hall
        have h1 := hall rid0 (by simp [relDataIds])
        rw [hres0] at h1
        exact absurd h1 (by simp)
    · rename_i hres0
      cases h
      constructor
      · intro _ rid hrid
        simp only [relDataIds, List.mem_singleton] at hrid
        subst hrid
        exact hres0
      · intro _
        rfl
  | many rids =>
    simp only [filterRelData] at h
    split at h
    · exact Except.noConfusion h
    · rename_i pairs hpairs
      cases h
      rw [List.map_eq_nil_iff]
      exact resolveList_nil_iff hpairs

/-- When every identifier of a relationship's data misses, the filtered data
carries no identifiers and nothing is collected. -/
lemma filterRelData_allmiss {resolver : Resolver} {d d2 : RelData}
    {res : List ResourceObject}
    (h : filterRelData resolver d = Except.ok (d2, res))
    (hmiss : ∀ rid ∈ relDataIds d, resolver rid.type rid.id = Except.ok Option.none) :
    relDataIds d2 = [] ∧ res = [] := by
  cases d with
  | null =>
    simp only [filterRelData] at h
    cases h
    exact ⟨rfl, rfl⟩
  | one rid0 =>
    simp only [filterRelData] at h
    split at h
    · exact Except.noConfusion h
    · rename_i res0 hres0
      have h1 := hmiss rid0 (by simp [relDataIds])
      rw [hres0] at h1
      exact absurd h1 (by simp)
    · cases h
      exact ⟨rfl, rfl⟩
  | many rids =>
    simp only [filterRelData] at h
    split at h
    · exact Except.noConfusion h
    · rename_i pairs hpairs
      cases h
      have hnil : pairs = [] := (resolveList_nil_iff hpairs).mpr hmiss
      subst hnil
      exact ⟨rfl, rfl⟩

/-- Every identifier surviving in a processed relationship whose name is
requested has a resolved resource in the collected list. -/
lemma processRels_dangling {resolver : Resolver} {incl : List String} :
    ∀ {rels rels2 : List (String × RelationshipEntry)} {res : List ResourceObject},
      processRels resolver incl rels = Except.ok (rels2, res) →
      ∀ name entry, (name, entry) ∈ rels2 → name ∈ incl →
        ∀ rid ∈ relDataIds entry.data, ∃ ro ∈ res, resolver rid.type rid.id = Except.ok (some ro) := by
  intro rels
  induction rels with
  | nil =>
    intro rels2 res h name entry hmem
    simp only [processRels] at h
    cases h
    simp at hmem
  | cons pair rest ih =>
    obtain ⟨name0, entry0⟩ := pair
    intro rels2 res h name entry hmem hincl rid hrid
    simp only [processRels] at h
    split at h
    · split at h
      · exact Except.noConfusion h
      · rename_i d resolved heqF
        split at h
        · exact Except.noConfusion h
        · rename_i restRels restRes heqR
          cases h
          rcases List.mem_cons.mp hmem with hm | hm
          · injection hm with hn he
            subst hn
            subst he
            rcases filterRelData_dangling heqF rid hrid with ⟨ro, hro, hres⟩
            exact ⟨ro, List.mem_append_left _ hro, hres⟩
          · rcases ih heqR name entry hm hincl rid hrid with ⟨ro, hro, hres⟩
            exact ⟨ro, List.mem_append_right _ hro, hres⟩
    · rename_i hnin
      split at h
      · exact Except.noConfusion h
      · rename_i restRels restRes heqR
        cases h
        rcases List.mem_cons.mp hmem with hm | hm
        · injection hm with hn he
          subst hn
          exact absurd hincl hnin
        · exact ih heqR name entry hm hincl rid hrid

/-- The collected list of a processed relationship mapping is empty exactly
when every requested identifier misses. -/
lemma processRels_nil_iff {resolver : Resolver} {incl : List String} :
    ∀ {rels rels2 : List (String × RelationshipEntry)} {res : List ResourceObject},
      processRels resolver incl rels = Except.ok (rels2, res) →
      (res = [] ↔ ∀ name entry rid, (name, entry) ∈ rels → name ∈ incl →
        rid ∈ relDataIds entry.data → resolver rid.type rid.id = Except.ok Option.none) := by
  intro rels
  induction rels with
  | nil =>
    intro rels2 res h
    simp only [processRels] at h
    cases h
    simp
  | cons pair rest ih =>
    obtain ⟨name0, entry0⟩ := pair
    intro rels2 res h
    simp only [processRels] at h
    split at h
    · rename_i hin
      split at h
      · exact Except.noConfusion h
      · rename_i d resolved heqF
        split at h
        · exact Except.noConfusion h
        · rename_i restRels restRes heqR
          cases h
          rw [List.append_eq_nil, filterRelData_nil_iff heqF, ih heqR]
          constructor
          · intro hboth name entry rid hmem hincl hrid
            rcases List.mem_cons.mp hmem with hm | hm
            · injection hm with hn he
              subst hn
              subst he
              exact hboth.1 rid hrid
            · exact hboth.2 name entry rid hm hincl hrid
          · intro hall
            constructor
            · intro rid hrid
              exact hall name0 entry0 rid (List.mem_cons_self _ _) hin hrid
            · intro name entry rid hmem hincl hrid
              exact hall name entry rid (List.mem_cons_of_mem _ hmem) hincl hrid
    · rename_i hnin
      split at h
      · exact Except.noConfusion h
      · rename_i restRels restRes heqR
        cases h
        rw [ih heqR]
        constructor
        · intro hrest name entry rid hmem hincl hrid
          rcases List.mem_cons.mp hmem with hm | hm
          · injection hm with hn he
            subst hn
            exact absurd hincl hnin
          · exact hrest name entry rid hm hincl hrid
        · intro hall name entry rid hmem hincl hrid
          exact hall name entry rid (List.mem_cons_of_mem _ hmem) hincl hrid

/-- When every requested identifier of a relationship mapping misses, nothing
is collected and every requested relationship in the output carries no
identifiers. -/
lemma processRels_allmiss {resolver : Resolver} {incl : List String} :
    ∀ {rels rels2 : List (String × RelationshipEntry)} {res : List ResourceObject},
      processRels resolver incl rels = Except.ok (rels2, res) →
      (∀ name entry rid, (name, entry) ∈ rels → name ∈ incl →
        rid ∈ relDataIds entry.data → resolver rid.type rid.id = Except.ok Option.none) →
      res = [] ∧ ∀ name entry, (name, entry) ∈ rels2 → name ∈ incl →
        relDataIds entry.data = [] := by
  intro rels
  induction rels with
  | nil =>
    intro rels2 res h _
    simp only [processRels] at h
    cases h
    exact ⟨rfl, by intro name entry hmem; simp at hmem⟩
  | cons pair rest ih =>
    obtain ⟨name0, entry0⟩ := pair
    intro rels2 res h hmiss
    simp only [processRels] at h
    split at h
    · rename_i hin
      split at h
      · exact Except.noConfusion h
      · rename_i d resolved heqF
        split at h
        · exact Except.noConfusion h
        · rename_i restRels restRes heqR
          cases h
          have hmiss0 : ∀ rid ∈ relDataIds entry0.data,
              resolver rid.type rid.id = Except.ok Option.none :=
            fun rid hrid => hmiss name0 entry0 rid (List.mem_cons_self _ _) hin hrid
          have hF := filterRelData_allmiss heqF hmiss0
          have hR := ih heqR (fun name entry rid hmem hincl hrid =>
            hmiss name entry rid (List.mem_cons_of_mem _ hmem) hincl hrid)
          refine ⟨by rw [hF.2, hR.1]; rfl, ?_⟩
          intro name entry hmem hincl
          rcases List.mem_cons.mp hmem with hm | hm
          · injection hm with hn he
            subst he
            exact hF.1
          · exact hR.2 name entry hm hincl
    · rename_i hnin
      split at h
      · exact Except.noConfusion h
      · rename_i restRels restRes heqR
        cases h
        have hR := ih heqR (fun name entry rid hmem hincl hrid =>
          hmiss name entry rid (List.mem_cons_of_mem _ hmem) hincl hrid)
        refine ⟨hR.1, ?_⟩
        intro name entry hmem hincl
        rcases List.mem_cons.mp hmem with hm | hm
        · injection hm with hn he
          subst hn
          exact absurd hincl hnin
        · exact hR.2 name entry hm hincl

/-- Deduplication of a non-empty list starting from an empty seen-set is
non-empty. -/
lemma dedup_nil_iff (l : List ResourceObject) :
    dedupResources l [] = [] ↔ l = [] := by
  cases l with
  | nil => simp [dedupResources]
  | cons r rest => simp [dedupResources]

/-- Every resource of the input list has a key representative in the
deduplicated output, unless its key was already seen. -/
lemma dedup_key_mem :
    ∀ (l : List ResourceObject) (seen : List (String × String)) (r : ResourceObject),
      r ∈ l → keyOf r ∈ seen ∨ ∃ r2 ∈ dedupResources l seen, keyOf r2 = keyOf r := by
  intro l
  induction l with
  | nil =>
    intro seen r hr
    simp at hr
  | cons a rest ih =>
    intro seen r hr
    rcases List.mem_cons.mp hr with hm | hm
    · subst hm
      by_cases hk : keyOf r ∈ seen
      · exact Or.inl hk
      · exact Or.inr ⟨r, by simp [dedupResources, hk], rfl⟩
    · by_cases hk : keyOf a ∈ seen
      · rcases ih seen r hm with hs | ⟨r2, h2, h3⟩
        · exact Or.inl hs
        · exact Or.inr ⟨r2, by simp [dedupResources, hk]; exact h2, h3⟩
      · rcases ih (keyOf a :: seen) r hm with hs | ⟨r2, h2, h3⟩
        · rcases List.mem_cons.mp hs with hs | hs
          · exact Or.inr ⟨a, by simp [dedupResources, hk], hs.symm⟩
          · exact Or.inl hs
        · exact Or.inr ⟨r2, by simp [dedupResources, hk]; exact Or.inr h2, h3⟩

/-- The collected list of a processed collection is empty exactly when every
requested identifier of every element misses. -/
lemma processResources_nil_iff {resolver : Resolver} {incl : List String} :
    ∀ {rs rs2 res : List ResourceObject},
      processResources resolver incl rs = Except.ok (rs2, res) →
      (res = [] ↔ ∀ r ∈ rs, allMissesResource resolver incl r) := by
  intro rs
  induction rs with
  | nil =>
    intro rs2 res h
    simp only [processResources] at h
    cases h
    simp
  | cons r rest ih =>
    intro rs2 res h
    simp only [processResources] at h
    split at h
    · exact Except.noConfusion h
    · rename_i r2 resolved heq
      split at h
      · exact Except.noConfusion h
      · rename_i rest2 resolvedRest heqR
        cases h
        unfold formatResource at heq
        split at heq
        · exact Except.noConfusion heq
        · rename_i rels resolved2 heqP
          cases heq
          rw [List.append_eq_nil, processRels_nil_iff heqP, ih heqR]
          constructor
          · intro hboth r' hr'
            rcases List.mem_cons.mp hr' with hm | hm
            · subst hm; exact hboth.1
            · exact hboth.2 r' hm
          · intro hall
            exact ⟨hall r (List.mem_cons_self _ _),
                   fun r' hr' => hall r' (List.mem_cons_of_mem _ hr')⟩

/-- C7: for every collection input, including the empty array, the output
data is an array of the input's length with elements in input order, and the
empty input yields a valid document with empty data, a self link and meta. -/
theorem collection_data_order (cfg : Config) (resolver : Resolver) (req : Request)
    (rs : List ResourceObject) (lq : List (String × List (String × String))) (doc : Document)
    (h : responseJsonApi cfg resolver req (Body.listing rs lq) = Except.ok doc) :
    doc.dataList.length = rs.length ∧
    doc.dataList.map ResourceObject.id = rs.map ResourceObject.id ∧
    doc.dataList.map ResourceObject.type = rs.map ResourceObject.type ∧
    (rs = [] → doc.data = DocData.many [] ∧ (lookupStr doc.links "self").isSome ∧
      doc.meta = { channel := req.identity.channelId, platform := req.identity.platformType }) := by
  simp only [responseJsonApi, formatCollection] at h
  split at h
  · cases h
    refine ⟨?_, ?_, ?_, ?_⟩
    · simp [Document.dataList]
    · simp [Document.dataList, List.map_map]
      exact fun a _ => rfl
    · simp [Document.dataList, List.map_map]
      exact fun a _ => rfl
    · intro hrs
      subst hrs
      exact ⟨by simp [Document.dataList], by simp [collectionLinks, lookupStr], rfl⟩
  · split at h
    · exact Except.noConfusion h
    · rename_i rs2 res heq
      cases h
      have hstrip := processResources_strip heq
      have hid : rs2.map ResourceObject.id = rs.map ResourceObject.id := by
        have h2 := congrArg (List.map ResourceObject.id) hstrip
        simpa [List.map_map, Function.comp, stripRels] using h2
      have htype : rs2.map ResourceObject.type = rs.map ResourceObject.type := by
        have h2 := congrArg (List.map ResourceObject.type) hstrip
        simpa [List.map_map, Function.comp, stripRels] using h2
      have hlen : rs2.length = rs.length := by
        have h2 := congrArg List.length hstrip
        simpa using h2
      refine ⟨?_, ?_, ?_, ?_⟩
      · simpa [Document.dataList] using hlen
      · calc (rs2.map (withSelfLink cfg req)).map ResourceObject.id
            = rs2.map ResourceObject.id := by
              simp [List.map_map]
              exact fun a _ => rfl
          _ = rs.map ResourceObject.id := hid
      · calc (rs2.map (withSelfLink cfg req)).map ResourceObject.type
            = rs2.map ResourceObject.type := by
              simp [List.map_map]
              exact fun a _ => rfl
          _ = rs.map ResourceObject.type := htype
      · intro hrs
        subst hrs
        have : rs2 = [] := by
          simpa using congrArg List.length hstrip
        subst this
        exact ⟨by simp [Document.dataList], by simp [collectionLinks, lookupStr], rfl⟩

/-- C7 witness: the empty listing yields a document with empty data, a self
link and the meta block, with data length zero. -/
theorem collection_data_order_witness :
    docEmptyListing.dataList.length = ([] : List ResourceObject).length ∧
    docEmptyListing.dataList.map ResourceObject.id = ([] : List ResourceObject).map ResourceObject.id ∧
    docEmptyListing.dataList.map ResourceObject.type = ([] : List ResourceObject).map ResourceObject.type ∧
    (([] : List ResourceObject) = [] → docEmptyListing.data = DocData.many [] ∧
      (lookupStr docEmptyListing.links "self").isSome ∧
      docEmptyListing.meta = { channel := testReq.identity.channelId,
                               platform := testReq.identity.platformType }) :=
  collection_data_order defaultCfg testResolver listingReq [] listingHints
    docEmptyListing (by rfl)

/-- C10: the assembler passes every payload resource's type, id and
attributes through to the corresponding data entry unchanged, and the
`linksQueries` side-channel attached to a collection body influences nothing
but the links: two bodies differing only in it yield the same data, included
and meta. -/
theorem payload_passthrough_frame (cfg : Config) (resolver : Resolver) (req : Request)
    (body : Body) (doc : Document)
    (h : responseJsonApi cfg resolver req body = Except.ok doc) :
    (doc.dataList.map ResourceObject.type = (bodyResources body).map ResourceObject.type ∧
     doc.dataList.map ResourceObject.id = (bodyResources body).map ResourceObject.id ∧
     doc.dataList.map ResourceObject.attributes = (bodyResources body).map ResourceObject.attributes) ∧
    (∀ rs lq lq2 doc2, body = Body.listing rs lq →
      responseJsonApi cfg resolver req (Body.listing rs lq2) = Except.ok doc2 →
      doc.data = doc2.data ∧ doc.included = doc2.included ∧ doc.meta = doc2.meta) := by
  constructor
  · cases body with
    | single r =>
      simp only [responseJsonApi, formatSingle] at h
      split at h
      · cases h
        exact ⟨rfl, rfl, rfl⟩
      · split at h
        · exact Except.noConfusion h
        · rename_i r2 res heq
          cases h
          have hstrip := formatResource_strip heq
          have htype : r2.type = r.type := by
            simpa [stripRels] using congrArg ResourceObject.type hstrip
          have hid : r2.id = r.id := by
            simpa [stripRels] using congrArg ResourceObject.id hstrip
          have hattr : r2.attributes = r.attributes := by
            simpa [stripRels] using congrArg ResourceObject.attributes hstrip
          exact ⟨by simp [Document.dataList, bodyResources, withSelfLink, htype],
                 by simp [Document.dataList, bodyResources, withSelfLink, hid],
                 by simp [Document.dataList, bodyResources, withSelfLink, hattr]⟩
    | listing rs lq =>
      simp only [responseJsonApi, formatCollection] at h
      split at h
      · cases h
        refine ⟨?_, ?_, ?_⟩ <;>
          · simp [Document.dataList, bodyResources, List.map_map]
            exact fun a _ => rfl
      · split at h
        · exact Except.noConfusion h
        · rename_i rs2 res heq
          cases h
          have hstrip := processResources_strip heq
          refine ⟨?_, ?_, ?_⟩
          · calc (rs2.map (withSelfLink cfg req)).map ResourceObject.type
                = rs2.map ResourceObject.type := by
                  simp [List.map_map]
                  exact fun a _ => rfl
              _ = rs.map ResourceObject.type := by
                  have h2 := congrArg (List.map ResourceObject.type) hstrip
                  simpa [List.map_map, Function.comp, stripRels] using h2
          · calc (rs2.map (withSelfLink cfg req)).map ResourceObject.id
                = rs2.map ResourceObject.id := by
                  simp [List.map_map]
                  exact fun a _ => rfl
              _ = rs.map ResourceObject.id := by
                  have h2 := congrArg (List.map ResourceObject.id) hstrip
                  simpa [List.map_map, Function.comp, stripRels] using h2
          · calc (rs2.map (withSelfLink cfg req)).map ResourceObject.attributes
                = rs2.map ResourceObject.attributes := by
                  simp [List.map_map]
                  exact fun a _ => rfl
              _ = rs.map ResourceObject.attributes := by
                  have h2 := congrArg (List.map ResourceObject.attributes) hstrip
                  simpa [List.map_map, Function.comp, stripRels] using h2
  · intro rs lq lq2 doc2 hbody h2
    subst hbody
    simp only [responseJsonApi, formatCollection] at h h2
    split at h
    · rename_i hc
      simp only [hc, if_true] at h2
      cases h
      cases h2
      exact ⟨rfl, rfl, rfl⟩
    · rename_i hc
      split at h
      · exact Except.noConfusion h
      · rename_i rs2 res heq
        simp only [if_neg hc, heq] at h2
        cases h
        cases h2
        exact ⟨rfl, rfl, rfl⟩

/-- C10 witness: for the one-element pagination listing, type, id and
attributes pass through and a different side-channel value leaves data,
included and meta unchanged. -/
theorem payload_passthrough_frame_witness :
    (docOneListing.dataList.map ResourceObject.type =
        (bodyResources (Body.listing [collectionFix] listingHints)).map ResourceObject.type ∧
     docOneListing.dataList.map ResourceObject.id =
        (bodyResources (Body.listing [collectionFix] listingHints)).map ResourceObject.id ∧
     docOneListing.dataList.map ResourceObject.attributes =
        (bodyResources (Body.listing [collectionFix] listingHints)).map ResourceObject.attributes) ∧
    (∀ rs lq lq2 doc2, Body.listing [collectionFix] listingHints = Body.listing rs lq →
      responseJsonApi defaultCfg testResolver listingReq (Body.listing rs lq2) = Except.ok doc2 →
      docOneListing.data = doc2.data ∧ docOneListing.included = doc2.included ∧
        docOneListing.meta = doc2.meta) :=
  payload_passthrough_frame defaultCfg testResolver listingReq
    (Body.listing [collectionFix] listingHints) docOneListing (by rfl)

/-- The test resolver only returns resources whose type and id match the
requested pair. -/
lemma testResolver_sound :
    ∀ t i ro, testResolver t i = Except.ok (some ro) → ro.type = t ∧ ro.id = i := by
  intro t i ro h
  unfold testResolver at h
  split_ifs at h with h1 h2 h3 h4
  · simp only [Bool.and_eq_true, decide_eq_true_eq] at h1
    obtain ⟨rfl, rfl⟩ := h1
    cases h
    exact ⟨rfl, rfl⟩
  · simp only [Bool.and_eq_true, decide_eq_true_eq] at h2
    obtain ⟨rfl, rfl⟩ := h2
    cases h
    exact ⟨rfl, rfl⟩
  · simp only [Bool.and_eq_true, decide_eq_true_eq] at h3
    obtain ⟨rfl, rfl⟩ := h3
    cases h
    exact ⟨rfl, rfl⟩
  · simp only [Bool.and_eq_true, decide_eq_true_eq] at h4
    obtain ⟨rfl, rfl⟩ := h4
    cases h
    exact ⟨rfl, rfl⟩
  · simp at h

/-- C2: the output has no `included` key at all when the include set is
empty; when it is non-empty the output has an `included` array, empty exactly
when every requested identifier fails to resolve. -/
theorem included_presence (cfg : Config) (resolver : Resolver) (req : Request)
    (body : Body) (doc : Document)
    (h : responseJsonApi cfg resolver req body = Except.ok doc) :
    (parseInclude req.query = [] → doc.included = Option.none) ∧
    (parseInclude req.query ≠ [] → ∃ l, doc.included = some l ∧
      (l = [] ↔ ∀ r ∈ bodyResources body,
        allMissesResource resolver (parseInclude req.query) r)) := by
  cases body with
  | single r =>
    simp only [responseJsonApi, formatSingle] at h
    split at h
    · rename_i hempty
      cases h
      exact ⟨fun _ => rfl, fun hne => absurd (List.isEmpty_iff.mp hempty) hne⟩
    · rename_i hne0
      split at h
      · exact Except.noConfusion h
      · rename_i r2 res heq
        cases h
        constructor
        · intro hnil
          exact absurd (List.isEmpty_iff.mpr hnil) hne0
        · intro _
          refine ⟨_, rfl, ?_⟩
          rw [List.map_eq_nil_iff, dedup_nil_iff]
          unfold formatResource at heq
          split at heq
          · exact Except.noConfusion heq
          · rename_i rels resolved heqP
            cases heq
            rw [processRels_nil_iff heqP]
            constructor
            · intro hall r' hr'
              simp only [bodyResources, List.mem_singleton] at hr'
              subst hr'
              exact hall
            · intro hall
              exact hall r (by simp [bodyResources])
  | listing rs lq =>
    simp only [responseJsonApi, formatCollection] at h
    split at h
    · rename_i hempty
      cases h
      exact ⟨fun _ => rfl, fun hne => absurd (List.isEmpty_iff.mp hempty) hne⟩
    · rename_i hne0
      split at h
      · exact Except.noConfusion h
      · rename_i rs2 res heq
        cases h
        constructor
        · intro hnil
          exact absurd (List.isEmpty_iff.mpr hnil) hne0
        · intro _
          refine ⟨_, rfl, ?_⟩
          rw [List.map_eq_nil_iff, dedup_nil_iff]
          exact processResources_nil_iff heq

/-- C2 witness: the broken-collection request carries an `included` array and
it is empty, every reference having missed. -/
theorem included_presence_witness :
    (parseInclude testReqInc.query = [] → docBrokenFix.included = Option.none) ∧
    (parseInclude testReqInc.query ≠ [] → ∃ l, docBrokenFix.included = some l ∧
      (l = [] ↔ ∀ r ∈ bodyResources (Body.single brokenCollectionFix),
        allMissesResource testResolver (parseInclude testReqInc.query) r)) :=
  included_presence defaultCfg testResolver testReqInc (Body.single brokenCollectionFix)
    docBrokenFix (by rfl)

/-- C1: no identifier surviving in a requested relationship of the output
dangles — each one has a matching resource in `included` — and when every
requested identifier is unresolvable the document carries an empty included
array and the requested relationships' data is emptied. -/
theorem unresolved_refs_dropped (cfg : Config) (resolver : Resolver) (req : Request)
    (r : ResourceObject) (doc : Document)
    (hsound : ∀ t i ro, resolver t i = Except.ok (some ro) → ro.type = t ∧ ro.id = i)
    (h : formatSingle cfg resolver req r = Except.ok doc) :
    (∀ r2 ∈ doc.dataList, ∀ name entry, (name, entry) ∈ r2.relationships →
      name ∈ parseInclude req.query → ∀ rid ∈ relDataIds entry.data,
        ∃ inc ∈ doc.included.getD [], inc.type = rid.type ∧ inc.id = rid.id) ∧
    (allMissesResource resolver (parseInclude req.query) r →
      parseInclude req.query ≠ [] →
      doc.included = some [] ∧
      ∀ r2 ∈ doc.dataList, ∀ name entry, (name, entry) ∈ r2.relationships →
        name ∈ parseInclude req.query → relDataIds entry.data = []) := by
  simp only [formatSingle] at h
  split at h
  · rename_i hempty
    cases h
    constructor
    · intro r2 _ name entry _ hincl rid _
      rw [List.isEmpty_iff.mp hempty] at hincl
      simp at hincl
    · intro _ hne
      exact absurd (List.isEmpty_iff.mp hempty) hne
  · rename_i hne0
    split at h
    · exact Except.noConfusion h
    · rename_i r2 res heq
      cases h
      unfold formatResource at heq
      split at heq
      · exact Except.noConfusion heq
      · rename_i rels resolved heqP
        cases heq
        constructor
        · intro r3 hr3 name entry hment hincl rid hrid
          simp only [Document.dataList, List.mem_singleton] at hr3
          subst hr3
          have hment2 : (name, entry) ∈ rels := hment
          rcases processRels_dangling heqP name entry hment2 hincl rid hrid
            with ⟨ro, hro, hres⟩
          rcases dedup_key_mem res [] ro hro with hseen | ⟨ro2, hro2, hkey⟩
          · simp at hseen
          · refine ⟨withSelfLink cfg req ro2, ?_, ?_, ?_⟩
            · simp only [Option.getD_some]
              exact List.mem_map_of_mem _ hro2
            · have h1 : ro2.type = ro.type := by
                have := congrArg Prod.fst hkey
                simpa [keyOf] using this
              rw [withSelfLink_type, h1, (hsound rid.type rid.id ro hres).1]
            · have h2 : ro2.id = ro.id := by
                have := congrArg Prod.snd hkey
                simpa [keyOf] using this
              rw [withSelfLink_id, h2, (hsound rid.type rid.id ro hres).2]
        · intro hmiss _
          have hA := processRels_allmiss heqP hmiss
          constructor
          · rw [hA.1]
            rfl
          · intro r3 hr3 name entry hment hincl
            simp only [Document.dataList, List.mem_singleton] at hr3
            subst hr3
            exact hA.2 name entry hment hincl

/-- C1 witness: for the broken collection every reference misses, the
document's included array is empty and the emitted `entities` relationship
data has length zero. -/
theorem unresolved_refs_dropped_witness :
    (∀ r2 ∈ docBrokenFix.dataList, ∀ name entry, (name, entry) ∈ r2.relationships →
      name ∈ parseInclude testReqInc.query → ∀ rid ∈ relDataIds entry.data,
        ∃ inc ∈ docBrokenFix.included.getD [], inc.type = rid.type ∧ inc.id = rid.id) ∧
    (allMissesResource testResolver (parseInclude testReqInc.query) brokenCollectionFix →
      parseInclude testReqInc.query ≠ [] →
      docBrokenFix.included = some [] ∧
      ∀ r2 ∈ docBrokenFix.dataList, ∀ name entry, (name, entry) ∈ r2.relationships →
        name ∈ parseInclude testReqInc.query → relDataIds entry.data = []) :=
  unresolved_refs_dropped defaultCfg testResolver testReqInc brokenCollectionFix
    docBrokenFix testResolver_sound (by rfl)

/-- Sequence resolution never fails for a never-faulting resolver. -/
lemma resolveList_total {resolver : Resolver} (hres : resolverTotal resolver) :
    ∀ rids, ∃ pairs, resolveList resolver rids = Except.ok pairs := by
  intro rids
  induction rids with
  | nil => exact ⟨[], rfl⟩
  | cons rid rest ih =>
    obtain ⟨o, ho⟩ := hres rid.type rid.id
    obtain ⟨pairs, hp⟩ := ih
    cases o with
    | none => exact ⟨pairs, by simp [resolveList, ho, hp]⟩
    | some res => exact ⟨(rid, res) :: pairs, by simp [resolveList, ho, hp]⟩

/-- Relationship filtering never fails for a never-faulting resolver. -/
lemma filterRelData_total {resolver : Resolver} (hres : resolverTotal resolver) :
    ∀ d, ∃ out, filterRelData resolver d = Except.ok out := by
  intro d
  cases d with
  | null => exact ⟨(RelData.null, []), rfl⟩
  | one rid =>
    obtain ⟨o, ho⟩ := hres rid.type rid.id
    cases o with
    | none => exact ⟨(RelData.null, []), by simp [filterRelData, ho]⟩
    | some res => exact ⟨(RelData.one rid, [res]), by simp [filterRelData, ho]⟩
  | many rids =>
    obtain ⟨pairs, hp⟩ := resolveList_total hres rids
    exact ⟨(RelData.many (pairs.map Prod.fst), pairs.map Prod.snd),
      by simp [filterRelData, hp]⟩

/-- Relationship-mapping processing never fails for a never-faulting
resolver. -/
lemma processRels_total {resolver : Resolver} (hres : resolverTotal resolver)
    (incl : List String) :
    ∀ rels, ∃ out, processRels resolver incl rels = Except.ok out := by
  intro rels
  induction rels with
  | nil => exact ⟨([], []), rfl⟩
  | cons pair rest ih =>
    obtain ⟨name0, entry0⟩ := pair
    obtain ⟨⟨restRels, restRes⟩, hR⟩ := ih
    by_cases hin : name0 ∈ incl
    · obtain ⟨⟨d, resolved⟩, hF⟩ := filterRelData_total hres entry0.data
      exact ⟨((name0, ⟨d⟩) :: restRels, resolved ++ restRes),
        by simp [processRels, hin, hF, hR]⟩
    · exact ⟨((name0, entry0) :: restRels, restRes),
        by simp [processRels, hin, hR]⟩

/-- Resource processing never fails for a never-faulting resolver. -/
lemma formatResource_total {resolver : Resolver} (hres : resolverTotal resolver)
    (incl : List String) (r : ResourceObject) :
    ∃ out, formatResource resolver incl r = Except.ok out := by
  obtain ⟨⟨rels, res⟩, hP⟩ := processRels_total hres incl r.relationships
  exact ⟨({ r with relationships := rels }, res), by simp [formatResource, hP]⟩

/-- Collection processing never fails for a never-faulting resolver. -/
lemma processResources_total {resolver : Resolver} (hres : resolverTotal resolver)
    (incl : List String) :
    ∀ rs, ∃ out, processResources resolver incl rs = Except.ok out := by
  intro rs
  induction rs with
  | nil => exact ⟨([], []), rfl⟩
  | cons r rest ih =>
    obtain ⟨⟨r2, res⟩, hF⟩ := formatResource_total hres incl r
    obtain ⟨⟨rest2, res2⟩, hR⟩ := ih
    exact ⟨(r2 :: rest2, res ++ res2), by simp [processResources, hF, hR]⟩

/-- If the query value is not an object the include set is empty. -/
lemma parseInclude_nonobj {q : QueryVal} (hq : ∀ fields, q ≠ QueryVal.obj fields) :
    parseInclude q = [] := by
  cases q with
  | undef => rfl
  | str s => rfl
  | obj fields => exact absurd rfl (hq fields)

/-- The test resolver never faults. -/
lemma testResolver_total : resolverTotal testResolver := by
  intro t i
  unfold testResolver
  split_ifs <;> exact ⟨_, rfl⟩

/-- C9: with a never-faulting resolver the middleware always invokes the
completion callback with a complete document; a malformed (non-object) query
degrades to the empty include set and identity fields pass through to meta
unvalidated. -/
theorem malformed_degrades (cfg : Config) (resolver : Resolver) (req : Request)
    (body : Body) (hres : resolverTotal resolver) :
    ∃ doc, responseJsonApi cfg resolver req body = Except.ok doc ∧
      doc.meta = { channel := req.identity.channelId, platform := req.identity.platformType } ∧
      ((∀ fields, req.query ≠ QueryVal.obj fields) →
        parseInclude req.query = [] ∧ doc.included = Option.none) := by
  cases body with
  | single r =>
    by_cases hE : (parseInclude req.query).isEmpty = true
    · refine ⟨{ data := DocData.one (withSelfLink cfg req r), included := Option.none,
                links := [("self", baseUrl cfg req ++ resourceSelfSuffix r)],
                meta := metaFor req.identity }, ?_, rfl, ?_⟩
      · simp [responseJsonApi, formatSingle, hE]
      · intro hq
        exact ⟨parseInclude_nonobj hq, rfl⟩
    · obtain ⟨⟨r2, res⟩, hF⟩ := formatResource_total hres (parseInclude req.query) r
      refine ⟨{ data := DocData.one (withSelfLink cfg req r2),
                included := some ((dedupResources res []).map (withSelfLink cfg req)),
                links := [("self", baseUrl cfg req ++ resourceSelfSuffix r)],
                meta := metaFor req.identity }, ?_, rfl, ?_⟩
      · simp [responseJsonApi, formatSingle, hE, hF]
      · intro hq
        exact absurd (by rw [parseInclude_nonobj hq]; rfl) hE
  | listing rs lq =>
    by_cases hE : (parseInclude req.query).isEmpty = true
    · refine ⟨{ data := DocData.many (rs.map (withSelfLink cfg req)), included := Option.none,
                links := collectionLinks cfg req lq,
                meta := metaFor req.identity }, ?_, rfl, ?_⟩
      · simp [responseJsonApi, formatCollection, hE]
      · intro hq
        exact ⟨parseInclude_nonobj hq, rfl⟩
    · obtain ⟨⟨rs2, res⟩, hP⟩ := processResources_total hres (parseInclude req.query) rs
      refine ⟨{ data := DocData.many (rs2.map (withSelfLink cfg req)),
                included := some ((dedupResources res []).map (withSelfLink cfg req)),
                links := collectionLinks cfg req lq,
                meta := metaFor req.identity }, ?_, rfl, ?_⟩
      · simp [responseJsonApi, formatCollection, hE, hP]
      · intro hq
        exact absurd (by rw [parseInclude_nonobj hq]; rfl) hE

/-- C9 witness: the suite's base request, whose query is the empty string
rather than an object, yields a complete document with no included key and
the identity passed through. -/
theorem malformed_degrades_witness :
    ∃ doc, responseJsonApi defaultCfg testResolver testReq (Body.single collectionFix) =
        Except.ok doc ∧
      doc.meta = { channel := testReq.identity.channelId,
                   platform := testReq.identity.platformType } ∧
      ((∀ fields, testReq.query ≠ QueryVal.obj fields) →
        parseInclude testReq.query = [] ∧ doc.included = Option.none) :=
  malformed_degrades defaultCfg testResolver testReq (Body.single collectionFix)
    testResolver_total

/-- A key absent from the first components of an ordered mapping looks up to
nothing. -/
lemma lookupStr_not_mem {l : List (String × String)} {k : String}
    (hk : k ∉ l.map Prod.fst) : lookupStr l k = Option.none := by
  induction l with
  | nil => rfl
  | cons a rest ih =>
    obtain ⟨k2, v⟩ := a
    simp only [List.map_cons, List.mem_cons, not_or] at hk
    simp only [lookupStr]
    rw [if_neg (fun hh => hk.1 hh.symm)]
    exact ih hk.2

/-- C4: a collection's links are exactly the self link reproducing the
original percent-encoded path and query followed by one link per pagination
hint obtained by merging the hint's pairs over the original query; absent
hints produce no link key; and the suite's concrete pagination request over
fourteen items yields the expected encoded self and next links and no prev. -/
theorem pagination_links_merge (cfg : Config) (resolver : Resolver) (req : Request)
    (rs : List ResourceObject) (lq : List (String × List (String × String)))
    (doc : Document) (name : String)
    (h : responseJsonApi cfg resolver req (Body.listing rs lq) = Except.ok doc)
    (hname : name ∉ lq.map Prod.fst) (hself : name ≠ "self") :
    doc.links = ("self", baseUrl cfg req ++ collectionSelfSuffix req) ::
      lq.map (fun nh => (nh.1, baseUrl cfg req ++ urlPath (req.url.getD "") ++
        querySuffix (mergeQuery (urlQuery (req.url.getD "")) nh.2))) ∧
    lookupStr doc.links name = Option.none ∧
    (∃ doc2, responseJsonApi defaultCfg testResolver listingReq
        (Body.listing listingResources listingHints) = Except.ok doc2 ∧
      lookupStr doc2.links "self" =
        some "https://example.com:3000/collections?page%5Blimit%5D=14&page%5Boffset%5D=0" ∧
      lookupStr doc2.links "next" =
        some "https://example.com:3000/collections?page%5Blimit%5D=10&page%5Boffset%5D=11" ∧
      (∃ p1, lookupStr doc2.links "self" =
        some (p1 ++ "page%5Blimit%5D=14&page%5Boffset%5D=0")) ∧
      (∃ p2, lookupStr doc2.links "next" =
        some (p2 ++ "page%5Blimit%5D=10&page%5Boffset%5D=11")) ∧
      lookupStr doc2.links "prev" = Option.none) := by
  have hlinks : doc.links = collectionLinks cfg req lq := by
    simp only [responseJsonApi, formatCollection] at h
    split at h
    · cases h; rfl
    · split at h
      · exact Except.noConfusion h
      · cases h; rfl
  refine ⟨hlinks, ?_, ?_⟩
  · rw [hlinks]
    simp only [collectionLinks, lookupStr]
    rw [if_neg (fun hh => hself hh.symm)]
    apply lookupStr_not_mem
    have : (lq.map (fun nh => (nh.1, baseUrl cfg req ++ urlPath (req.url.getD "") ++
        querySuffix (mergeQuery (urlQuery (req.url.getD "")) nh.2)))).map Prod.fst =
        lq.map Prod.fst := by
      rw [List.map_map]
      exact List.map_congr_left (fun nh _ => rfl)
    rw [this]
    exact hname
  · refine ⟨_, rfl, ?_, ?_, ⟨"https://example.com:3000/collections?", ?_⟩,
      ⟨"https://example.com:3000/collections?", ?_⟩, ?_⟩ <;> rfl

/-- C4 witness: instantiated at the empty listing with only a next hint and
the absent name prev. -/
theorem pagination_links_merge_witness :
    docEmptyListing.links = ("self", baseUrl defaultCfg listingReq ++
        collectionSelfSuffix listingReq) ::
      listingHints.map (fun nh => (nh.1, baseUrl defaultCfg listingReq ++
        urlPath (listingReq.url.getD "") ++
        querySuffix (mergeQuery (urlQuery (listingReq.url.getD "")) nh.2))) ∧
    lookupStr docEmptyListing.links "prev" = Option.none ∧
    (∃ doc2, responseJsonApi defaultCfg testResolver listingReq
        (Body.listing listingResources listingHints) = Except.ok doc2 ∧
      lookupStr doc2.links "self" =
        some "https://example.com:3000/collections?page%5Blimit%5D=14&page%5Boffset%5D=0" ∧
      lookupStr doc2.links "next" =
        some "https://example.com:3000/collections?page%5Blimit%5D=10&page%5Boffset%5D=11" ∧
      (∃ p1, lookupStr doc2.links "self" =
        some (p1 ++ "page%5Blimit%5D=14&page%5Boffset%5D=0")) ∧
      (∃ p2, lookupStr doc2.links "next" =
        some (p2 ++ "page%5Blimit%5D=10&page%5Boffset%5D=11")) ∧
      lookupStr doc2.links "prev" = Option.none) :=
  pagination_links_merge defaultCfg testResolver listingReq [] listingHints
    docEmptyListing "prev" (by rfl) (by decide) (by decide)

/-- C8: the document self link is always the configured base URL followed by
a configuration-independent suffix: the re-encoded original path and query
for collections, the pluralized-type path for single resources. -/
theorem self_link_absolute (cfg : Config) (resolver : Resolver) (req : Request)
    (body : Body) (doc : Document)
    (h : responseJsonApi cfg resolver req body = Except.ok doc) :
    ∃ suffix, lookupStr doc.links "self" = some (baseUrl cfg req ++ suffix) ∧
      (∀ rs lq, body = Body.listing rs lq → suffix = collectionSelfSuffix req) ∧
      (∀ r, body = Body.single r → suffix = resourceSelfSuffix r) := by
  cases body with
  | single r =>
    refine ⟨resourceSelfSuffix r, ?_, ?_, ?_⟩
    · simp only [responseJsonApi, formatSingle] at h
      split at h
      · cases h
        simp [lookupStr]
      · split at h
        · exact Except.noConfusion h
        · cases h
          simp [lookupStr]
    · intro rs lq heq
      exact Body.noConfusion heq
    · intro r2 heq
      cases heq
      rfl
  | listing rs lq =>
    refine ⟨collectionSelfSuffix req, ?_, ?_, ?_⟩
    · simp only [responseJsonApi, formatCollection] at h
      split at h
      · cases h
        simp [collectionLinks, lookupStr]
      · split at h
        · exact Except.noConfusion h
        · cases h
          simp [collectionLinks, lookupStr]
    · intro rs2 lq2 heq
      cases heq
      rfl
    · intro r2 heq
      exact Body.noConfusion heq

/-- C8 witness: the suite's single-resource request instantiates the
absolute-self-link shape. -/
theorem self_link_absolute_witness :
    ∃ suffix, lookupStr docSingleFix.links "self" =
        some (baseUrl defaultCfg testReq ++ suffix) ∧
      (∀ rs lq, Body.single collectionFix = Body.listing rs lq →
        suffix = collectionSelfSuffix testReq) ∧
      (∀ r, Body.single collectionFix = Body.single r →
        suffix = resourceSelfSuffix r) :=
  self_link_absolute defaultCfg testResolver testReq (Body.single collectionFix)
    docSingleFix (by rfl)

/-- The characters of a concatenation. -/
lemma toList_append (s t : String) : (s ++ t).toList = s.toList ++ t.toList :=
  String.data_append s t

/-- The characters of a packed list. -/
lemma mk_toList (l : List Char) : (String.mk l).toList = l := rfl

/-- A string starting with a slash still does after extension on the right. -/
lemma head_slash_append {s : String} (t : String)
    (hs : s.toList.head? = some slashChar) :
    (s ++ t).toList.head? = some slashChar := by
  rw [toList_append]
  cases hl : s.toList with
  | nil => rw [hl] at hs; simp at hs
  | cons c cs =>
    rw [hl] at hs
    simp only [List.head?_cons, Option.some.injEq] at hs
    subst hs
    simp

/-- A single-resource self suffix starts with a slash. -/
lemma resourceSelfSuffix_head (r : ResourceObject) :
    (resourceSelfSuffix r).toList.head? = some slashChar := by
  unfold resourceSelfSuffix
  apply head_slash_append
  apply head_slash_append
  apply head_slash_append
  rfl

/-- The head of what dropWhile keeps fails the predicate. -/
lemma head_dropWhile_not {α : Type} (p : α → Bool) :
    ∀ (l : List α) (c : α), (l.dropWhile p).head? = some c → p c = false := by
  intro l
  induction l with
  | nil => intro c h; simp [List.dropWhile] at h
  | cons a rest ih =>
    intro c h
    rw [List.dropWhile_cons] at h
    by_cases hp : p a = true
    · rw [if_pos hp] at h
      exact ih c h
    · rw [if_neg hp] at h
      simp only [List.head?_cons, Option.some.injEq] at h
      subst h
      simpa using hp

/-- The last character of the slash-trimmed segment is not a slash. -/
lemma trim_getLast {l : List Char} {c : Char}
    (h : ((l.dropWhile (fun c => c = slashChar)).reverse.dropWhile
        (fun c => c = slashChar)).reverse.getLast? = some c) :
    c ≠ slashChar := by
  rw [List.getLast?_reverse] at h
  have h2 := head_dropWhile_not _ _ _ h
  simpa using h2

/-- Appending a non-empty packed segment whose last character is not a slash
to the slash yields a string not ending in a slash. -/
lemma slash_mk_getLast {Q : List Char} (hne : Q ≠ [])
    (hlast : ∀ c, Q.getLast? = some c → c ≠ slashChar) :
    (("/" : String) ++ String.mk Q).toList.getLast? ≠ some slashChar := by
  rw [toList_append, List.getLast?_append]
  simp only [mk_toList]
  cases hQ : Q.getLast? with
  | none =>
    have h1 := List.getLast?_isSome.mpr hne
    rw [hQ] at h1
    simp at h1
  | some c =>
    rw [Option.or_some]
    intro habs
    simp only [Option.some.injEq] at habs
    exact hlast c hQ habs

/-- The normalised path segment never ends in a slash. -/
lemma normPre_no_trailing (p : Option String) :
    (normPre p).toList.getLast? ≠ some slashChar := by
  cases p with
  | none => simp [normPre]
  | some s =>
    simp only [normPre]
    split
    · simp
    · rename_i hqe
      apply slash_mk_getLast
      · intro h0
        exact hqe (by rw [h0]; rfl)
      · intro c hc
        exact trim_getLast hc

/-- The normalised path segment is empty or starts with a slash. -/
lemma normPre_head (p : Option String) :
    normPre p = "" ∨ (normPre p).toList.head? = some slashChar := by
  cases p with
  | none => exact Or.inl rfl
  | some s =>
    simp only [normPre]
    split
    · exact Or.inl rfl
    · right
      apply head_slash_append
      rfl

/-- Base URL with the port excluded: protocol, host, normalised segment. -/
lemma baseUrl_noPort (p : Option String) (req : Request) :
    baseUrl { pre := p, excludePortFromLinks := true } req =
      req.protocol ++ "://" ++ req.hostname ++ normPre p := by
  simp [baseUrl, String.append_empty]

/-- Base URL with the port kept: protocol, host, colon, port, segment. -/
lemma baseUrl_withPort (p : Option String) (req : Request) :
    baseUrl { pre := p, excludePortFromLinks := false } req =
      req.protocol ++ "://" ++ req.hostname ++ ":" ++ toString req.port ++ normPre p := by
  simp [baseUrl, String.append_assoc]

/-- The self links of decorated resources, in order. -/
lemma filterMap_links_withSelfLink (cfg : Config) (req : Request)
    (l : List ResourceObject) :
    (l.map (withSelfLink cfg req)).filterMap ResourceObject.links =
      l.map (fun x => baseUrl cfg req ++ resourceSelfSuffix x) := by
  induction l with
  | nil => rfl
  | cons a rest ih =>
    simp only [List.map_cons, List.filterMap_cons, withSelfLink]
    rw [ih]

/-- The self links of decorated resources, composed form. -/
lemma filterMap_links_comp (cfg : Config) (req : Request) (l : List ResourceObject) :
    List.filterMap (ResourceObject.links ∘ withSelfLink cfg req) l =
      l.map (fun x => baseUrl cfg req ++ resourceSelfSuffix x) := by
  induction l with
  | nil => rfl
  | cons a rest ih =>
    simp [Function.comp, withSelfLink, List.filterMap_cons, ih]

/-- Every link of an emitted document is the base URL followed by the
corresponding configuration-independent suffix of the document's shape. -/
lemma responseJsonApi_allLinks (cfg : Config) (resolver : Resolver) (req : Request)
    (body : Body) (doc : Document)
    (h : responseJsonApi cfg resolver req body = Except.ok doc) :
    ∃ suf, docShape resolver req body = Except.ok suf ∧
      allLinks doc = suf.map (fun s => baseUrl cfg req ++ s) := by
  cases body with
  | single r =>
    simp only [responseJsonApi, formatSingle] at h
    split at h
    · rename_i hE
      cases h
      refine ⟨[resourceSelfSuffix r, resourceSelfSuffix r], ?_, ?_⟩
      · simp [docShape, hE]
      · simp [allLinks, Document.dataList, withSelfLink]
    · rename_i hE
      split at h
      · exact Except.noConfusion h
      · rename_i r2 res heq
        cases h
        refine ⟨resourceSelfSuffix r :: resourceSelfSuffix r2 ::
          (dedupResources res []).map resourceSelfSuffix, ?_, ?_⟩
        · simp [docShape, hE, heq]
        · simp [allLinks, Document.dataList, withSelfLink,
            filterMap_links_withSelfLink, List.map_map, Function.comp]
          rw [filterMap_links_comp]
          simp [Function.comp]
  | listing rs lq =>
    simp only [responseJsonApi, formatCollection] at h
    split at h
    · rename_i hE
      cases h
      refine ⟨(collectionSelfSuffix req ::
        lq.map (fun nh => urlPath (req.url.getD "") ++
          querySuffix (mergeQuery (urlQuery (req.url.getD "")) nh.2))) ++
        rs.map resourceSelfSuffix, ?_, ?_⟩
      · simp [docShape, hE]
      · simp [allLinks, Document.dataList, withSelfLink, collectionLinks,
          filterMap_links_withSelfLink, List.map_map, Function.comp,
          collectionSelfSuffix, String.append_assoc]
        rw [filterMap_links_comp]
        congr 1
    · rename_i hE
      split at h
      · exact Except.noConfusion h
      · rename_i rs2 res heq
        cases h
        refine ⟨(collectionSelfSuffix req ::
          lq.map (fun nh => urlPath (req.url.getD "") ++
            querySuffix (mergeQuery (urlQuery (req.url.getD "")) nh.2))) ++
          rs2.map resourceSelfSuffix ++
          (dedupResources res []).map resourceSelfSuffix, ?_, ?_⟩
        · simp [docShape, hE, heq]
        · simp [allLinks, Document.dataList, withSelfLink, collectionLinks,
            filterMap_links_withSelfLink, List.map_map, Function.comp,
            collectionSelfSuffix, String.append_assoc]
          rw [filterMap_links_comp, filterMap_links_comp]
          congr 1

/-- Every suffix of a document's shape starts with a slash, provided the
original url path of a listing request does. -/
lemma docShape_slash {resolver : Resolver} {req : Request} {body : Body}
    {suf : List String}
    (h : docShape resolver req body = Except.ok suf)
    (hpath : ∀ rs lq, body = Body.listing rs lq →
      (urlPath (req.url.getD "")).toList.head? = some slashChar) :
    ∀ s ∈ suf, s.toList.head? = some slashChar := by
  cases body with
  | single r =>
    simp only [docShape] at h
    split at h
    · cases h
      intro s hs
      simp only [List.mem_cons, List.mem_singleton] at hs
      rcases hs with rfl | rfl | hs
      · exact resourceSelfSuffix_head r
      · exact resourceSelfSuffix_head r
      · simp at hs
    · split at h
      · exact Except.noConfusion h
      · rename_i r2 res heq
        cases h
        intro s hs
        simp only [List.mem_cons] at hs
        rcases hs with rfl | rfl | hs
        · exact resourceSelfSuffix_head r
        · exact resourceSelfSuffix_head r2
        · rcases List.mem_map.mp hs with ⟨x, _, rfl⟩
          exact resourceSelfSuffix_head x
  | listing rs lq =>
    have hp : (urlPath (req.url.getD "")).toList.head? = some slashChar :=
      hpath rs lq rfl
    simp only [docShape] at h
    split at h
    · cases h
      intro s hs
      simp only [List.mem_append, List.mem_cons] at hs
      rcases hs with (rfl | hs) | hs
      · exact head_slash_append _ hp
      · rcases List.mem_map.mp hs with ⟨nh, _, rfl⟩
        exact head_slash_append _ hp
      · rcases List.mem_map.mp hs with ⟨x, _, rfl⟩
        exact resourceSelfSuffix_head x
    · split at h
      · exact Except.noConfusion h
      · rename_i rs2 res heq
        cases h
        intro s hs
        simp only [List.mem_append, List.mem_cons] at hs
        rcases hs with ((rfl | hs) | hs) | hs
        · exact head_slash_append _ hp
        · rcases List.mem_map.mp hs with ⟨nh, _, rfl⟩
          exact head_slash_append _ hp
        · rcases List.mem_map.mp hs with ⟨x, _, rfl⟩
          exact resourceSelfSuffix_head x
        · rcases List.mem_map.mp hs with ⟨x, _, rfl⟩
          exact resourceSelfSuffix_head x

/-- C6: every generated link is the base URL — protocol://hostname, the port
omitted exactly when excludePortFromLinks is set, then the prefix segment
normalised to a single leading slash and no trailing slash — followed by a
slash-leading suffix that does not depend on the configuration: toggling the
port or setting the prefix rewrites the base of every link, including those of
included resources, and nothing else. -/
theorem links_base_rules (p : Option String) (resolver : Resolver) (req : Request)
    (body : Body) (b1 b2 : Bool) (doc1 doc2 : Document)
    (h1 : responseJsonApi { pre := p, excludePortFromLinks := b1 } resolver req body =
      Except.ok doc1)
    (h2 : responseJsonApi { pre := p, excludePortFromLinks := b2 } resolver req body =
      Except.ok doc2)
    (hpath : ∀ rs lq, body = Body.listing rs lq →
      (urlPath (req.url.getD "")).toList.head? = some slashChar) :
    ∃ suf : List String,
      allLinks doc1 = suf.map (fun s =>
        baseUrl { pre := p, excludePortFromLinks := b1 } req ++ s) ∧
      allLinks doc2 = suf.map (fun s =>
        baseUrl { pre := p, excludePortFromLinks := b2 } req ++ s) ∧
      (∀ s ∈ suf, s.toList.head? = some slashChar) ∧
      baseUrl { pre := p, excludePortFromLinks := true } req =
        req.protocol ++ "://" ++ req.hostname ++ normPre p ∧
      baseUrl { pre := p, excludePortFromLinks := false } req =
        req.protocol ++ "://" ++ req.hostname ++ ":" ++ toString req.port ++ normPre p ∧
      (normPre p = "" ∨ (normPre p).toList.head? = some slashChar) ∧
      (normPre p).toList.getLast? ≠ some slashChar := by
  obtain ⟨suf1, hs1, ha1⟩ := responseJsonApi_allLinks _ resolver req body doc1 h1
  obtain ⟨suf2, hs2, ha2⟩ := responseJsonApi_allLinks _ resolver req body doc2 h2
  rw [hs1] at hs2
  have hsuf : suf1 = suf2 := Except.ok.inj hs2
  subst hsuf
  exact ⟨suf1, ha1, ha2, docShape_slash hs1 hpath, baseUrl_noPort p req,
    baseUrl_withPort p req, normPre_head p, normPre_no_trailing p⟩

/-- C6 witness: the empty pagination listing, assembled with and without the
port, factors through the two base URLs with a common slash-leading suffix
list. -/
theorem links_base_rules_witness :
    ∃ suf : List String,
      allLinks docEmptyListing = suf.map (fun s =>
        baseUrl { pre := Option.none, excludePortFromLinks := false } listingReq ++ s) ∧
      allLinks docEmptyListingNoPort = suf.map (fun s =>
        baseUrl { pre := Option.none, excludePortFromLinks := true } listingReq ++ s) ∧
      (∀ s ∈ suf, s.toList.head? = some slashChar) ∧
      baseUrl { pre := Option.none, excludePortFromLinks := true } listingReq =
        listingReq.protocol ++ "://" ++ listingReq.hostname ++ normPre Option.none ∧
      baseUrl { pre := Option.none, excludePortFromLinks := false } listingReq =
        listingReq.protocol ++ "://" ++ listingReq.hostname ++ ":" ++
          toString listingReq.port ++ normPre Option.none ∧
      (normPre Option.none = "" ∨ (normPre Option.none).toList.head? = some slashChar) ∧
      (normPre Option.none).toList.getLast? ≠ some slashChar :=
  links_base_rules Option.none testResolver listingReq (Body.listing [] listingHints)
    false true docEmptyListing docEmptyListingNoPort (by rfl) (by rfl)
    (fun rs lq _ => by rfl)

/-- C3 witness: for the suite's include request the document self link and the
three included videos' self links follow the pluralized-type rule. -/
theorem single_self_link_shape_witness :
    lookupStr docIncludedFix.links "self" =
        some (baseUrl defaultCfg testReqInc ++ "/" ++ pluralize collectionFix.type ++ "/" ++
          collectionFix.id) ∧
      (∀ inc ∈ docIncludedFix.included.getD [],
        inc.links = some (baseUrl defaultCfg testReqInc ++ "/" ++ pluralize inc.type ++ "/" ++
          inc.id)) ∧
      pluralize "video" = "videos" ∧ pluralize "collection" = "collections" :=
  single_self_link_shape defaultCfg testResolver testReqInc collectionFix
    docIncludedFix (by rfl)

end JsonApi
